import Mathlib

/-!
Shallow embedding of `src/utr-maker.py` (class `UTRMaker`).

The script reads one GenBank record via Biopython, keeps its sequence
(a string) and its feature list, and derives:
  * `find_segment_boundaries` — named locus-segment ranges from
    `misc_feature` notes,
  * `find_coding_boundaries` — the global coding envelope
    `(min(starts), max(stops))` over all CDS features,
  * `extract_5prime_utr` / `extract_3prime_utr` — sequence slices
    `sequence[:start]` and `sequence[stop:]` wrapped in `SeqRecord`s,
  * `save_utrs` — one FASTA write per non-`None` UTR record,
  * `get_utr_details` — a report of both UTR lengths and the segment map.

Biopython semantics used by the embedding:
  * every location object exposes `parts`; a simple location's `parts` is
    the one-element list containing itself, a compound location's `parts`
    is its ordered sub-range list (never empty: Biopython rejects a
    `CompoundLocation` with fewer than two parts, so the embedding keeps
    the first part separate to make nonemptiness structural);
  * `location.start` / `location.end` of a compound location are the
    minimum start and maximum end over its parts;
  * `SeqRecord.__bool__` returns `True` unconditionally (its doc string
    says this is kept for backwards compatibility), so `if utr5:` on a
    `SeqRecord`-or-`None` value is a `None` test;
  * the GenBank parser never produces an empty qualifier value list, so
    `qualifiers["note"][0]` is modelled with `head?`;
  * positions are nonnegative integers (`Nat` here), and Python slicing
    `s[:k]` / `s[k:]` clamps at the sequence ends like `take` / `drop`.
-/

/-- Feature location: `Simple(start, end)` or `Compound(list of (start, end))`,
half-open 0-based intervals. A compound location carries its first part
separately so that the parts list is nonempty by construction. -/
inductive Location where
  | simple (start stop : Nat) : Location
  | compound (firstPart : Nat × Nat) (restParts : List (Nat × Nat)) : Location
deriving DecidableEq

/-- The Biopython `parts` attribute: a simple location is its own single
part, a compound location lists its sub-ranges in 5'-to-3' order. -/
def Location.parts : Location → List (Nat × Nat)
  | .simple s e => [(s, e)]
  | .compound p rest => p :: rest

/-- The Biopython `location.start` attribute: the start of a simple
location, the minimum start over the parts of a compound location. -/
def Location.start : Location → Nat
  | .simple s _ => s
  | .compound p rest => rest.foldl (fun a q => min a q.1) p.1

/-- The Biopython `location.end` attribute (named `stop` here because `end`
is a Lean keyword): the end of a simple location, the maximum end over the
parts of a compound location. -/
def Location.stop : Location → Nat
  | .simple _ e => e
  | .compound p rest => rest.foldl (fun a q => max a q.2) p.2

/-- `int(feature.location.parts[0].start)` — what the compound-location
branch of `find_coding_boundaries` appends to `starts`. -/
def Location.firstPartStart : Location → Nat
  | .simple s _ => s
  | .compound p _ => p.1

/-- `int(feature.location.parts[-1].end)` — what the compound-location
branch of `find_coding_boundaries` appends to `stops`. -/
def Location.lastPartEnd : Location → Nat
  | .simple _ e => e
  | .compound p rest => (rest.getLastD p).2

/-- The compound-handling branch of `find_coding_boundaries`, read
literally through the `parts` list: `parts[0].start` (`none` would mean an
`IndexError`, which nonemptiness of `parts` rules out). -/
def partsBranchStart (loc : Location) : Option Nat :=
  loc.parts.head?.map Prod.fst

/-- The compound-handling branch of `find_coding_boundaries`, read
literally through the `parts` list: `parts[-1].end`. -/
def partsBranchEnd (loc : Location) : Option Nat :=
  loc.parts.getLast?.map Prod.snd

/-- A GenBank feature as the script consumes it: `feature.type`,
`feature.location`, and `feature.qualifiers` (a mapping from qualifier key
to an ordered list of string values). -/
structure Feature where
  type : String
  location : Location
  qualifiers : List (String × List String)
deriving DecidableEq

/-- The snapshot `UTRMaker.__init__` takes of the parsed record:
`self.record.id`, `self.sequence = str(self.record.seq)` (a list of
symbols here), and `self.features`. -/
structure AnnotatedRecord where
  id : String
  sequence : List Char
  features : List Feature
deriving DecidableEq

/-- A Biopython `SeqRecord` as built by the extraction methods: sequence,
identifier and description. -/
structure SeqRecord where
  seq : List Char
  id : String
  description : String
deriving DecidableEq

/-- The dictionary returned by `get_utr_details`. -/
structure UTRDetails where
  utr5_length : Nat
  utr3_length : Nat
  segments : List (String × List (Nat × Nat))
deriving DecidableEq

/-- `feature.qualifiers["note"][0]` guarded by `"note" in feature.qualifiers`:
the first value of the note qualifier, when the key is present. -/
def noteOf (f : Feature) : Option String :=
  match f.qualifiers.lookup ("note") with
  | some vs => vs.head?
  | none => none

/-- `note.lower()` as a list of characters (the notes at stake are ASCII,
where Python's `str.lower` agrees with `Char.toLower`). -/
def lowerList (s : String) : List Char :=
  s.toList.map Char.toLower

/-- The literal part of the regular expression `locus segment (\d+)`:
the pattern is this literal followed by one or more digits. -/
def locusPat : List Char :=
  ("locus segment ").toList

/-- Attempt of `re.search(r"locus segment (\d+)", text)` at the current
position: the literal must be a prefix and at least one digit must follow;
the capture group is the maximal digit run (greedy `\d+`). -/
def matchLocusAt (l : List Char) : Option (List Char) :=
  if locusPat.isPrefixOf l then
    let ds := (l.drop locusPat.length).takeWhile Char.isDigit
    if ds.isEmpty then none else some ds
  else none

/-- `re.search(r"locus segment (\d+)", text)`: the leftmost position where
the whole pattern matches, returning the captured digit run. -/
def searchLocusSegment : List Char → Option (List Char)
  | [] => none
  | c :: rest =>
    match matchLocusAt (c :: rest) with
    | some ds => some ds
    | none => searchLocusSegment rest

/-- Python's substring test `needle in hay`: some suffix of `hay` starts
with `needle`. -/
def containsSub : List Char → List Char → Bool
  | needle, [] => needle.isEmpty
  | needle, c :: rest => needle.isPrefixOf (c :: rest) || containsSub needle rest

/-- The dictionary update in `find_segment_boundaries`: create the key with
an empty list when absent (appending at the end, Python dicts keep
insertion order), then append the range to its list. -/
def addRange (segs : List (String × List (Nat × Nat))) (sid : String)
    (r : Nat × Nat) : List (String × List (Nat × Nat)) :=
  if segs.any (fun p => p.1 == sid) then
    segs.map (fun p => if p.1 == sid then (p.1, p.2 ++ [r]) else p)
  else
    segs ++ [(sid, [r])]

/-- The per-feature test of `find_segment_boundaries`: a `misc_feature`
whose first note value contains "locus segment" (case-insensitively) and
matches the pattern yields the derived segment id, every other feature
yields nothing. -/
def segmentIdOf (f : Feature) : Option String :=
  if f.type == "misc_feature" then
    match noteOf f with
    | some note =>
      if containsSub (("locus segment").toList) (lowerList note) then
        match searchLocusSegment (lowerList note) with
        | some ds => some ("segment_" ++ String.mk ds)
        | none => none
      else none
    | none => none
  else none

/-- `UTRMaker.find_segment_boundaries`: scan the feature list in order,
collecting `(start, end)` ranges under the derived segment ids. -/
def find_segment_boundaries (features : List Feature) :
    List (String × List (Nat × Nat)) :=
  features.foldl (fun segs f =>
    match segmentIdOf f with
    | some sid => addRange segs sid (f.location.start, f.location.stop)
    | none => segs) []

/-- The `starts` list accumulated by the CDS loop of
`find_coding_boundaries`, one entry per CDS feature in scan order. -/
def cdsStarts (features : List Feature) : List Nat :=
  (features.filter (fun f => f.type == "CDS")).map
    (fun f => f.location.firstPartStart)

/-- The `stops` list accumulated by the CDS loop of
`find_coding_boundaries`, one entry per CDS feature in scan order. -/
def cdsStops (features : List Feature) : List Nat :=
  (features.filter (fun f => f.type == "CDS")).map
    (fun f => f.location.lastPartEnd)

/-- `UTRMaker.find_coding_boundaries`: `(min(starts), max(stops))` when the
accumulated lists are nonempty (Python's `min`/`max` of a nonempty list),
`(None, None)` otherwise. -/
def find_coding_boundaries (features : List Feature) :
    Option Nat × Option Nat :=
  match cdsStarts features, cdsStops features with
  | s :: ss, t :: ts => (some (ss.foldl min s), some (ts.foldl max t))
  | _, _ => (none, none)

/-- `UTRMaker.extract_5prime_utr`: `None` when the boundary is undefined,
otherwise a `SeqRecord` holding `sequence[:first_coding_start]`. -/
def extract_5prime_utr (r : AnnotatedRecord) : Option SeqRecord :=
  match (find_coding_boundaries r.features).1 with
  | none => none
  | some first_coding_start =>
    some { seq := r.sequence.take first_coding_start
           id := r.id ++ "_5UTR"
           description := "5\x27 UTR from " ++ r.id }

/-- `UTRMaker.extract_3prime_utr`: `None` when the boundary is undefined,
otherwise a `SeqRecord` holding `sequence[last_coding_stop:]`. -/
def extract_3prime_utr (r : AnnotatedRecord) : Option SeqRecord :=
  match (find_coding_boundaries r.features).2 with
  | none => none
  | some last_coding_stop =>
    some { seq := r.sequence.drop last_coding_stop
           id := r.id ++ "_3UTR"
           description := "3\x27 UTR from " ++ r.id }

/-- `UTRMaker.save_utrs` as the list of `(file name, record)` writes it
performs. `if utr5:` tests a `SeqRecord`-or-`None` value; Biopython's
`SeqRecord.__bool__` returns `True` unconditionally, so the test succeeds
exactly when the record is present (even with an empty sequence). -/
def save_utrs (r : AnnotatedRecord) (stem : String) :
    List (String × SeqRecord) :=
  (match extract_5prime_utr r with
   | some u => [(stem ++ "_5UTR.fasta", u)]
   | none => []) ++
  (match extract_3prime_utr r with
   | some u => [(stem ++ "_3UTR.fasta", u)]
   | none => [])

/-- `UTRMaker.get_utr_details`: both UTR lengths (`0` for an absent UTR)
and the segment map. -/
def get_utr_details (r : AnnotatedRecord) : UTRDetails :=
  { utr5_length :=
      match extract_5prime_utr r with
      | some u => u.seq.length
      | none => 0
    utr3_length :=
      match extract_3prime_utr r with
      | some u => u.seq.length
      | none => 0
    segments := find_segment_boundaries r.features }

/-- Python slice `l[a:b]` for `0 ≤ a ≤ b` (clamping at the ends). -/
def pySlice (l : List Char) (a b : Nat) : List Char :=
  (l.drop a).take (b - a)

/-- A CDS feature with a simple location, as produced by the GenBank
parser for a plain `CDS  a..b` entry. -/
def cdsSimple (s e : Nat) : Feature :=
  { type := "CDS", location := .simple s e, qualifiers := [] }

/-- A `misc_feature` with a simple location and a single note value. -/
def miscNote (note : String) (s e : Nat) : Feature :=
  { type := "misc_feature"
    location := .simple s e
    qualifiers := [("note", [note])] }

/-- The spec scenario: a record of length 1000 with CDS features at
`[100,700)` and `[650,900)`. -/
def scenarioRecord : AnnotatedRecord :=
  { id := "MZ242719"
    sequence := List.replicate 1000 'A'
    features := [cdsSimple 100 700, cdsSimple 650 900] }

/-- A CDS feature with the compound location `[(10,20),(30,50)]` of the
spec's compound-location scenario. -/
def compoundCds : Feature :=
  { type := "CDS", location := .compound (10, 20) [(30, 50)], qualifiers := [] }

/-- Feature list for the segment scenario: a matching note, a
non-matching note, and a note with a malformed numeric suffix. -/
def segScenarioFeatures : List Feature :=
  [miscNote ("Locus Segment 3 protein") 5 40,
   miscNote ("random comment") 50 60,
   miscNote ("locus segment x") 70 80]

/-- A record with no CDS feature at all. -/
def noCdsRecord : AnnotatedRecord :=
  { id := "EMPTY"
    sequence := ("ACGTACGT").toList
    features := [miscNote ("random comment") 1 3] }

/-- A record whose single CDS starts at 0 and stops at the sequence
length: both UTRs are present but empty. -/
def emptyUtrRecord : AnnotatedRecord :=
  { id := "EDGE"
    sequence := ("ACGTACGTAC").toList
    features := [cdsSimple 0 10] }

/-- A record whose CDS end (50) exceeds the sequence length (10): the
annotation is accepted without plausibility validation. -/
def overrunRecord : AnnotatedRecord :=
  { id := "OVER"
    sequence := ("ACGTACGTAC").toList
    features := [cdsSimple 2 50] }

/-! Helper lemmas about `foldl min` / `foldl max`, which implement
Python's `min(list)` / `max(list)` on nonempty lists. -/

theorem foldl_min_le_init (l : List Nat) (a : Nat) : l.foldl min a ≤ a := by
  induction l generalizing a with
  | nil => exact Nat.le_refl a
  | cons b t ih => exact Nat.le_trans (ih (min a b)) (Nat.min_le_left a b)

theorem foldl_min_le_of_mem (l : List Nat) (a x : Nat) (hx : x ∈ l) :
    l.foldl min a ≤ x := by
  induction l generalizing a with
  | nil => cases hx
  | cons b t ih =>
    rcases List.mem_cons.mp hx with h | h
    · subst h
      exact Nat.le_trans (foldl_min_le_init t (min a x)) (Nat.min_le_right a x)
    · exact ih (min a b) h

theorem foldl_min_mem (l : List Nat) (a : Nat) :
    l.foldl min a = a ∨ l.foldl min a ∈ l := by
  induction l generalizing a with
  | nil => exact Or.inl rfl
  | cons b t ih =>
    rcases ih (min a b) with h | h
    · rcases Nat.le_total a b with hab | hba
      · exact Or.inl (by rw [List.foldl_cons, h, Nat.min_eq_left hab])
      · refine Or.inr ?_
        rw [List.foldl_cons, h, Nat.min_eq_right hba]
        exact List.mem_cons_self b t
    · exact Or.inr (List.mem_cons_of_mem b h)

theorem le_foldl_max_init (l : List Nat) (a : Nat) : a ≤ l.foldl max a := by
  induction l generalizing a with
  | nil => exact Nat.le_refl a
  | cons b t ih => exact Nat.le_trans (Nat.le_max_left a b) (ih (max a b))

theorem le_foldl_max_of_mem (l : List Nat) (a x : Nat) (hx : x ∈ l) :
    x ≤ l.foldl max a := by
  induction l generalizing a with
  | nil => cases hx
  | cons b t ih =>
    rcases List.mem_cons.mp hx with h | h
    · subst h
      exact Nat.le_trans (Nat.le_max_right a x) (le_foldl_max_init t (max a x))
    · exact ih (max a b) h

theorem foldl_max_mem (l : List Nat) (a : Nat) :
    l.foldl max a = a ∨ l.foldl max a ∈ l := by
  induction l generalizing a with
  | nil => exact Or.inl rfl
  | cons b t ih =>
    rcases ih (max a b) with h | h
    · rcases Nat.le_total a b with hab | hba
      · refine Or.inr ?_
        rw [List.foldl_cons, h, Nat.max_eq_right hab]
        exact List.mem_cons_self b t
      · exact Or.inl (by rw [List.foldl_cons, h, Nat.max_eq_left hba])
    · exact Or.inr (List.mem_cons_of_mem b h)

/-! Helper lemmas about the CDS accumulator lists and the envelope. -/

theorem mem_cdsStarts {fs : List Feature} {f : Feature} (hf : f ∈ fs)
    (ht : f.type = "CDS") : f.location.firstPartStart ∈ cdsStarts fs := by
  exact List.mem_map_of_mem _ (List.mem_filter.mpr ⟨hf, by simp [ht]⟩)

theorem mem_cdsStops {fs : List Feature} {f : Feature} (hf : f ∈ fs)
    (ht : f.type = "CDS") : f.location.lastPartEnd ∈ cdsStops fs := by
  exact List.mem_map_of_mem _ (List.mem_filter.mpr ⟨hf, by simp [ht]⟩)

theorem cdsStarts_length_eq (fs : List Feature) :
    (cdsStarts fs).length = (cdsStops fs).length := by
  simp [cdsStarts, cdsStops]

theorem cdsStops_cons_of_starts {fs : List Feature} {s : Nat} {ss : List Nat}
    (hs : cdsStarts fs = s :: ss) : ∃ t ts, cdsStops fs = t :: ts := by
  have hlen := cdsStarts_length_eq fs
  rw [hs] at hlen
  cases ht : cdsStops fs with
  | nil => rw [ht] at hlen; simp at hlen
  | cons t ts => exact ⟨t, ts, rfl⟩

theorem fcb_cons {fs : List Feature} {s t : Nat} {ss ts : List Nat}
    (hs : cdsStarts fs = s :: ss) (ht : cdsStops fs = t :: ts) :
    find_coding_boundaries fs = (some (ss.foldl min s), some (ts.foldl max t)) := by
  unfold find_coding_boundaries
  rw [hs, ht]

theorem coding_envelope_spec {fs : List Feature} {f : Feature} (hf : f ∈ fs)
    (ht : f.type = "CDS") :
    ∃ gs ge, find_coding_boundaries fs = (some gs, some ge) ∧
      gs ∈ cdsStarts fs ∧ (∀ x ∈ cdsStarts fs, gs ≤ x) ∧
      ge ∈ cdsStops fs ∧ (∀ x ∈ cdsStops fs, x ≤ ge) := by
  cases hs : cdsStarts fs with
  | nil =>
    exfalso
    have := mem_cdsStarts hf ht
    rw [hs] at this
    cases this
  | cons s ss =>
    obtain ⟨t, ts, hts⟩ := cdsStops_cons_of_starts hs
    refine ⟨ss.foldl min s, ts.foldl max t, fcb_cons hs hts, ?_, ?_, ?_, ?_⟩
    · rcases foldl_min_mem ss s with h | h
      · rw [h]; exact List.mem_cons_self s ss
      · exact List.mem_cons_of_mem s h
    · intro x hx
      rcases List.mem_cons.mp hx with h | h
      · subst h; exact foldl_min_le_init ss x
      · exact foldl_min_le_of_mem ss s x h
    · rw [hts]
      rcases foldl_max_mem ts t with h | h
      · rw [h]; exact List.mem_cons_self t ts
      · exact List.mem_cons_of_mem t h
    · intro x hx
      rw [hts] at hx
      rcases List.mem_cons.mp hx with h | h
      · subst h; exact le_foldl_max_init ts x
      · exact le_foldl_max_of_mem ts t x h

/-! Helper lemmas about the per-location extraction and UTR slicing. -/

theorem firstPartStart_parts_head {loc : Location} {q : Nat × Nat}
    (h : loc.parts.head? = some q) : loc.firstPartStart = q.1 := by
  cases loc with
  | simple s e =>
    simp [Location.parts] at h
    simp [Location.firstPartStart, ← h]
  | compound p rest =>
    simp [Location.parts] at h
    simp [Location.firstPartStart, ← h]

theorem getLast?_cons_getLastD (a : Nat × Nat) (l : List (Nat × Nat)) :
    (a :: l).getLast? = some (l.getLastD a) := by
  induction l generalizing a with
  | nil => rfl
  | cons b t ih => rw [List.getLast?_cons_cons, ih b, List.getLastD_cons]

theorem lastPartEnd_parts_getLast {loc : Location} {q : Nat × Nat}
    (h : loc.parts.getLast? = some q) : loc.lastPartEnd = q.2 := by
  cases loc with
  | simple s e =>
    simp [Location.parts] at h
    simp [Location.lastPartEnd, ← h]
  | compound p rest =>
    rw [Location.parts, getLast?_cons_getLastD] at h
    simp only [Option.some.injEq] at h
    simp only [Location.lastPartEnd]
    rw [h]

theorem extract5_eq {r : AnnotatedRecord} {gs ge : Nat}
    (hb : find_coding_boundaries r.features = (some gs, some ge)) :
    extract_5prime_utr r =
      some { seq := r.sequence.take gs
             id := r.id ++ "_5UTR"
             description := "5\x27 UTR from " ++ r.id } := by
  unfold extract_5prime_utr
  rw [hb]

theorem extract3_eq {r : AnnotatedRecord} {gs ge : Nat}
    (hb : find_coding_boundaries r.features = (some gs, some ge)) :
    extract_3prime_utr r =
      some { seq := r.sequence.drop ge
             id := r.id ++ "_3UTR"
             description := "3\x27 UTR from " ++ r.id } := by
  unfold extract_3prime_utr
  rw [hb]

set_option maxRecDepth 8192 in
/-- Claim C1: for every feature list containing at least one CDS feature,
`find_coding_boundaries` returns the joint envelope — a defined pair whose
first component is the minimum of the contributed starts and whose second
component is the maximum of the contributed ends; in the length-1000
scenario with CDS features at `[100,700)` and `[650,900)` the result is
`(100, 900)`, giving a 5' UTR of length 100 and a 3' UTR of length 100. -/
theorem coding_envelope_min_max (fs : List Feature)
    (h : ∃ f ∈ fs, f.type = "CDS") :
    (∃ gs ge, find_coding_boundaries fs = (some gs, some ge) ∧
      gs ∈ cdsStarts fs ∧ (∀ x ∈ cdsStarts fs, gs ≤ x) ∧
      ge ∈ cdsStops fs ∧ (∀ x ∈ cdsStops fs, x ≤ ge)) ∧
    find_coding_boundaries scenarioRecord.features = (some 100, some 900) ∧
    (∃ u5, extract_5prime_utr scenarioRecord = some u5 ∧ u5.seq.length = 100) ∧
    (∃ u3, extract_3prime_utr scenarioRecord = some u3 ∧ u3.seq.length = 100) := by
  have hb : find_coding_boundaries scenarioRecord.features = (some 100, some 900) := by
    decide
  obtain ⟨f, hf, ht⟩ := h
  refine ⟨coding_envelope_spec hf ht, hb, ⟨_, extract5_eq hb, ?_⟩,
    ⟨_, extract3_eq hb, ?_⟩⟩
  · show (scenarioRecord.sequence.take 100).length = 100
    rw [show scenarioRecord.sequence = List.replicate 1000 'A' from rfl,
      List.length_take, List.length_replicate]
    omega
  · show (scenarioRecord.sequence.drop 900).length = 100
    rw [show scenarioRecord.sequence = List.replicate 1000 'A' from rfl,
      List.length_drop, List.length_replicate]

theorem coding_envelope_min_max_witness :
    (∃ f ∈ scenarioRecord.features, f.type = "CDS") ∧
    ((∃ gs ge, find_coding_boundaries scenarioRecord.features = (some gs, some ge) ∧
      gs ∈ cdsStarts scenarioRecord.features ∧
      (∀ x ∈ cdsStarts scenarioRecord.features, gs ≤ x) ∧
      ge ∈ cdsStops scenarioRecord.features ∧
      (∀ x ∈ cdsStops scenarioRecord.features, x ≤ ge)) ∧
    find_coding_boundaries scenarioRecord.features = (some 100, some 900) ∧
    (∃ u5, extract_5prime_utr scenarioRecord = some u5 ∧ u5.seq.length = 100) ∧
    (∃ u3, extract_3prime_utr scenarioRecord = some u3 ∧ u3.seq.length = 100)) :=
  ⟨by decide, coding_envelope_min_max scenarioRecord.features (by decide)⟩

/-- Claim C2: a CDS feature contributes the start of its first sub-range
and the end of its last sub-range (its own start and end for a simple
location, whose parts list is the singleton of itself) to the envelope
lists; a compound CDS with sub-ranges `[(10,20),(30,50)]` contributes
`start = 10` and `end = 50` regardless of the other CDS features, so the
envelope satisfies `global_start ≤ 10` and `50 ≤ global_end`. -/
theorem cds_contributes_first_start_last_end (fs : List Feature) (f : Feature)
    (hmem : f ∈ fs) (hcds : f.type = "CDS") (a1 b1 a2 b2 : Nat)
    (h1 : f.location.parts.head? = some (a1, b1))
    (h2 : f.location.parts.getLast? = some (a2, b2)) :
    a1 ∈ cdsStarts fs ∧ b2 ∈ cdsStops fs ∧
    (f.location = Location.compound (10, 20) [(30, 50)] →
      ∃ gs ge, find_coding_boundaries fs = (some gs, some ge) ∧
        gs ≤ 10 ∧ 50 ≤ ge) := by
  have ha : f.location.firstPartStart = a1 := firstPartStart_parts_head h1
  have hb : f.location.lastPartEnd = b2 := lastPartEnd_parts_getLast h2
  refine ⟨ha ▸ mem_cdsStarts hmem hcds, hb ▸ mem_cdsStops hmem hcds, ?_⟩
  intro hloc
  obtain ⟨gs, ge, hfcb, _, hlb, _, hub⟩ := coding_envelope_spec hmem hcds
  refine ⟨gs, ge, hfcb, ?_, ?_⟩
  · have h10 : f.location.firstPartStart = 10 := by rw [hloc]; rfl
    exact h10 ▸ hlb _ (mem_cdsStarts hmem hcds)
  · have h50 : f.location.lastPartEnd = 50 := by rw [hloc]; rfl
    exact h50 ▸ hub _ (mem_cdsStops hmem hcds)

theorem cds_contributes_first_start_last_end_witness :
    (compoundCds ∈ [compoundCds] ∧ compoundCds.type = "CDS" ∧
      compoundCds.location.parts.head? = some (10, 20) ∧
      compoundCds.location.parts.getLast? = some (30, 50)) ∧
    (10 ∈ cdsStarts [compoundCds] ∧ 50 ∈ cdsStops [compoundCds] ∧
      (compoundCds.location = Location.compound (10, 20) [(30, 50)] →
        ∃ gs ge, find_coding_boundaries [compoundCds] = (some gs, some ge) ∧
          gs ≤ 10 ∧ 50 ≤ ge)) :=
  ⟨⟨by decide, by decide, by decide, by decide⟩,
    cds_contributes_first_start_last_end [compoundCds] compoundCds (by decide)
      (by decide) 10 20 30 50 (by decide) (by decide)⟩

/-- Claim C3: with no CDS feature present, `find_coding_boundaries`
returns the undefined pair `(None, None)`, both UTR extractors return
`None`, the report shows both UTR lengths as 0, and `save_utrs` performs
no write — a defined outcome, not an exception. -/
theorem no_cds_defined_absence (r : AnnotatedRecord) (stem : String)
    (h : ∀ f ∈ r.features, f.type ≠ "CDS") :
    find_coding_boundaries r.features = (none, none) ∧
    extract_5prime_utr r = none ∧ extract_3prime_utr r = none ∧
    (get_utr_details r).utr5_length = 0 ∧ (get_utr_details r).utr3_length = 0 ∧
    save_utrs r stem = [] := by
  have hfilter : r.features.filter (fun f => f.type == "CDS") = [] := by
    rw [List.filter_eq_nil_iff]
    intro f hf
    simpa using h f hf
  have hs : cdsStarts r.features = [] := by simp [cdsStarts, hfilter]
  have ht : cdsStops r.features = [] := by simp [cdsStops, hfilter]
  have hfcb : find_coding_boundaries r.features = (none, none) := by
    unfold find_coding_boundaries
    rw [hs, ht]
  have he5 : extract_5prime_utr r = none := by simp [extract_5prime_utr, hfcb]
  have he3 : extract_3prime_utr r = none := by simp [extract_3prime_utr, hfcb]
  exact ⟨hfcb, he5, he3, by simp [get_utr_details, he5],
    by simp [get_utr_details, he3], by simp [save_utrs, he5, he3]⟩

theorem no_cds_defined_absence_witness :
    (∀ f ∈ noCdsRecord.features, f.type ≠ "CDS") ∧
    (find_coding_boundaries noCdsRecord.features = (none, none) ∧
      extract_5prime_utr noCdsRecord = none ∧
      extract_3prime_utr noCdsRecord = none ∧
      (get_utr_details noCdsRecord).utr5_length = 0 ∧
      (get_utr_details noCdsRecord).utr3_length = 0 ∧
      save_utrs noCdsRecord ("out") = []) :=
  ⟨by decide, no_cds_defined_absence noCdsRecord ("out") (by decide)⟩

/-- Claim C4: whenever the coding boundary is defined, the writer is
invoked exactly once per present UTR region (Biopython's
`SeqRecord.__bool__` is constantly `True`, so `if utr5:` only filters out
`None`); with `global_start = 0` the 5' UTR is present with an empty
sequence and its file is still written, and likewise for the 3' UTR when
`global_end` equals the sequence length — distinct from the undefined
boundary case, where nothing is written. -/
theorem present_empty_utr_distinct_from_absent (r : AnnotatedRecord)
    (stem : String) (gs ge : Nat)
    (hb : find_coding_boundaries r.features = (some gs, some ge)) :
    (∃ u5 u3, extract_5prime_utr r = some u5 ∧ extract_3prime_utr r = some u3 ∧
      save_utrs r stem =
        [(stem ++ "_5UTR.fasta", u5), (stem ++ "_3UTR.fasta", u3)]) ∧
    (gs = 0 → ∃ u5, extract_5prime_utr r = some u5 ∧ u5.seq = [] ∧
      (stem ++ "_5UTR.fasta", u5) ∈ save_utrs r stem) ∧
    (ge = r.sequence.length → ∃ u3, extract_3prime_utr r = some u3 ∧
      u3.seq = [] ∧ (stem ++ "_3UTR.fasta", u3) ∈ save_utrs r stem) ∧
    (∀ rec : AnnotatedRecord,
      find_coding_boundaries rec.features = (none, none) →
      extract_5prime_utr rec = none ∧ save_utrs rec stem = []) := by
  have he5 := extract5_eq hb
  have he3 := extract3_eq hb
  refine ⟨⟨_, _, he5, he3, by simp [save_utrs, he5, he3]⟩, ?_, ?_, ?_⟩
  · intro hgs
    subst hgs
    exact ⟨_, he5, by simp, by simp [save_utrs, he5, he3]⟩
  · intro hge
    subst hge
    exact ⟨_, he3, by simp, by simp [save_utrs, he5, he3]⟩
  · intro rec hrec
    have h5 : extract_5prime_utr rec = none := by simp [extract_5prime_utr, hrec]
    have h3 : extract_3prime_utr rec = none := by simp [extract_3prime_utr, hrec]
    exact ⟨h5, by simp [save_utrs, h5, h3]⟩

theorem present_empty_utr_distinct_from_absent_witness :
    find_coding_boundaries emptyUtrRecord.features = (some 0, some 10) ∧
    ((∃ u5 u3, extract_5prime_utr emptyUtrRecord = some u5 ∧
      extract_3prime_utr emptyUtrRecord = some u3 ∧
      save_utrs emptyUtrRecord ("out") =
        [("out" ++ "_5UTR.fasta", u5), ("out" ++ "_3UTR.fasta", u3)]) ∧
    (0 = 0 → ∃ u5, extract_5prime_utr emptyUtrRecord = some u5 ∧ u5.seq = [] ∧
      ("out" ++ "_5UTR.fasta", u5) ∈ save_utrs emptyUtrRecord ("out")) ∧
    (10 = emptyUtrRecord.sequence.length →
      ∃ u3, extract_3prime_utr emptyUtrRecord = some u3 ∧ u3.seq = [] ∧
        ("out" ++ "_3UTR.fasta", u3) ∈ save_utrs emptyUtrRecord ("out")) ∧
    (∀ rec : AnnotatedRecord,
      find_coding_boundaries rec.features = (none, none) →
      extract_5prime_utr rec = none ∧ save_utrs rec ("out") = [])) :=
  ⟨by decide,
    present_empty_utr_distinct_from_absent emptyUtrRecord ("out") 0 10 (by decide)⟩

/-- Claim C5: `find_segment_boundaries` matches only `misc_feature`s whose
first note value matches "locus segment `<integer>`" case-insensitively,
mapping each match to the key "segment_`<integer>`" with the feature's
range appended in scan order; non-matching notes (such as
"random comment") and malformed numeric suffixes contribute nothing; the
note "Locus Segment 3 protein" at `[5,40)` yields
`segments["segment_3"] = [(5,40)]`. -/
theorem segment_note_pattern :
    find_segment_boundaries segScenarioFeatures = [("segment_3", [(5, 40)])] ∧
    (∀ f : Feature, f.type ≠ "misc_feature" → segmentIdOf f = none) ∧
    (∀ (f : Feature) (note : String), f.type = "misc_feature" →
      noteOf f = some note → searchLocusSegment (lowerList note) = none →
      segmentIdOf f = none) ∧
    (∀ (fs : List Feature) (f : Feature), segmentIdOf f = none →
      find_segment_boundaries (fs ++ [f]) = find_segment_boundaries fs) ∧
    (∀ (fs : List Feature) (f : Feature) (sid : String),
      segmentIdOf f = some sid →
      find_segment_boundaries (fs ++ [f]) =
        addRange (find_segment_boundaries fs) sid
          (f.location.start, f.location.stop)) := by
  refine ⟨by decide, ?_, ?_, ?_, ?_⟩
  · intro f h
    unfold segmentIdOf
    rw [if_neg (by simpa using h)]
  · intro f note hm hn hs
    simp only [segmentIdOf, hn, hs, ite_self]
  · intro fs f h
    unfold find_segment_boundaries
    rw [List.foldl_append]
    simp [h]
  · intro fs f sid h
    unfold find_segment_boundaries
    rw [List.foldl_append]
    simp [h]

theorem segment_note_pattern_witness :
    segmentIdOf (miscNote ("random comment") 50 60) = none ∧
    find_segment_boundaries
        (segScenarioFeatures ++ [miscNote ("random comment") 50 60]) =
      find_segment_boundaries segScenarioFeatures :=
  ⟨by decide,
    segment_note_pattern.2.2.2.1 segScenarioFeatures
      (miscNote ("random comment") 50 60) (by decide)⟩

/-- Claim C6: for a defined coding boundary with
`global_start ≤ global_end ≤ sequence length`, the 5' UTR, the coding
span `sequence[global_start:global_end]` and the 3' UTR concatenate back
to the original sequence. -/
theorem utr_round_trip (r : AnnotatedRecord) (gs ge : Nat)
    (hb : find_coding_boundaries r.features = (some gs, some ge))
    (h1 : gs ≤ ge) (_h2 : ge ≤ r.sequence.length) :
    ∃ u5 u3, extract_5prime_utr r = some u5 ∧ extract_3prime_utr r = some u3 ∧
      u5.seq ++ pySlice r.sequence gs ge ++ u3.seq = r.sequence := by
  refine ⟨_, _, extract5_eq hb, extract3_eq hb, ?_⟩
  show r.sequence.take gs ++ pySlice r.sequence gs ge ++ r.sequence.drop ge =
    r.sequence
  have key : r.sequence.drop ge = (r.sequence.drop gs).drop (ge - gs) := by
    rw [List.drop_drop]
    congr 1
    omega
  simp only [pySlice]
  rw [List.append_assoc, key, List.take_append_drop, List.take_append_drop]

set_option maxRecDepth 8192 in
theorem utr_round_trip_witness :
    (find_coding_boundaries scenarioRecord.features = (some 100, some 900) ∧
      100 ≤ 900 ∧ 900 ≤ scenarioRecord.sequence.length) ∧
    (∃ u5 u3, extract_5prime_utr scenarioRecord = some u5 ∧
      extract_3prime_utr scenarioRecord = some u3 ∧
      u5.seq ++ pySlice scenarioRecord.sequence 100 900 ++ u3.seq =
        scenarioRecord.sequence) :=
  ⟨⟨by decide, by decide, by decide⟩,
    utr_round_trip scenarioRecord 100 900 (by decide) (by decide) (by decide)⟩

/-- Claim C7: every resolver is a deterministic, stateless function of the
immutable snapshot: two records agreeing on identifier, sequence and
feature list yield identical results on every operation, hence repeated
invocation on the same snapshot is idempotent. -/
theorem resolvers_deterministic (r1 r2 : AnnotatedRecord)
    (hid : r1.id = r2.id) (hseq : r1.sequence = r2.sequence)
    (hfeat : r1.features = r2.features) :
    find_coding_boundaries r1.features = find_coding_boundaries r2.features ∧
    find_segment_boundaries r1.features = find_segment_boundaries r2.features ∧
    extract_5prime_utr r1 = extract_5prime_utr r2 ∧
    extract_3prime_utr r1 = extract_3prime_utr r2 ∧
    get_utr_details r1 = get_utr_details r2 ∧
    (∀ stem : String, save_utrs r1 stem = save_utrs r2 stem) := by
  obtain ⟨i1, s1, f1⟩ := r1
  obtain ⟨i2, s2, f2⟩ := r2
  simp only [] at hid hseq hfeat
  subst hid
  subst hseq
  subst hfeat
  exact ⟨rfl, rfl, rfl, rfl, rfl, fun _ => rfl⟩

theorem resolvers_deterministic_witness :
    (noCdsRecord.id = noCdsRecord.id ∧
      noCdsRecord.sequence = noCdsRecord.sequence ∧
      noCdsRecord.features = noCdsRecord.features) ∧
    (find_coding_boundaries noCdsRecord.features =
        find_coding_boundaries noCdsRecord.features ∧
      find_segment_boundaries noCdsRecord.features =
        find_segment_boundaries noCdsRecord.features ∧
      extract_5prime_utr noCdsRecord = extract_5prime_utr noCdsRecord ∧
      extract_3prime_utr noCdsRecord = extract_3prime_utr noCdsRecord ∧
      get_utr_details noCdsRecord = get_utr_details noCdsRecord ∧
      (∀ stem : String, save_utrs noCdsRecord stem = save_utrs noCdsRecord stem)) :=
  ⟨⟨rfl, rfl, rfl⟩, resolvers_deterministic noCdsRecord noCdsRecord rfl rfl rfl⟩

/-- Claim C8: `find_coding_boundaries` returns either a pair of two
defined integers or the pair `(None, None)`; never exactly one defined
component. -/
theorem coding_boundary_both_or_neither (fs : List Feature) :
    (∃ gs ge, find_coding_boundaries fs = (some gs, some ge)) ∨
    find_coding_boundaries fs = (none, none) := by
  cases hs : cdsStarts fs with
  | nil =>
    right
    have hlen := cdsStarts_length_eq fs
    rw [hs] at hlen
    have ht : cdsStops fs = [] := by
      cases hts : cdsStops fs with
      | nil => rfl
      | cons t ts => rw [hts] at hlen; simp at hlen
    unfold find_coding_boundaries
    rw [hs, ht]
  | cons s ss =>
    left
    obtain ⟨t, ts, ht⟩ := cdsStops_cons_of_starts hs
    exact ⟨_, _, fcb_cons hs ht⟩

/-- Claim C9: on a simple location, the compound-handling branch of
`find_coding_boundaries` (reading `parts[0].start` and `parts[-1].end`,
where a simple location's parts list is the one-element list containing
itself) computes the same pair as the direct branch reading
`location.start` and `location.end`. -/
theorem parts_branch_eq_direct_on_simple (s e : Nat) :
    (Location.simple s e).parts = [(s, e)] ∧
    partsBranchStart (Location.simple s e) =
      some ((Location.simple s e).start) ∧
    partsBranchEnd (Location.simple s e) = some ((Location.simple s e).stop) ∧
    (Location.simple s e).firstPartStart = (Location.simple s e).start ∧
    (Location.simple s e).lastPartEnd = (Location.simple s e).stop := by
  refine ⟨rfl, rfl, ?_, rfl, rfl⟩
  simp [partsBranchEnd, Location.parts, Location.stop]

/-- Claim C10: for any defined coding boundary, both extractors return a
present region without faulting even when a boundary exceeds the sequence
length: slicing clamps, so the 5' UTR length is
`min(global_start, length)` and the 3' UTR length is
`length - min(global_end, length)`. -/
theorem utr_slicing_clamps (r : AnnotatedRecord) (gs ge : Nat)
    (hb : find_coding_boundaries r.features = (some gs, some ge)) :
    ∃ u5 u3, extract_5prime_utr r = some u5 ∧ extract_3prime_utr r = some u3 ∧
      u5.seq.length = min gs r.sequence.length ∧
      u3.seq.length = r.sequence.length - min ge r.sequence.length := by
  refine ⟨_, _, extract5_eq hb, extract3_eq hb, ?_, ?_⟩
  · show (r.sequence.take gs).length = min gs r.sequence.length
    rw [List.length_take]
  · show (r.sequence.drop ge).length =
      r.sequence.length - min ge r.sequence.length
    rw [List.length_drop]
    omega

theorem utr_slicing_clamps_witness :
    find_coding_boundaries overrunRecord.features = (some 2, some 50) ∧
    (∃ u5 u3, extract_5prime_utr overrunRecord = some u5 ∧
      extract_3prime_utr overrunRecord = some u3 ∧
      u5.seq.length = min 2 overrunRecord.sequence.length ∧
      u3.seq.length =
        overrunRecord.sequence.length - min 50 overrunRecord.sequence.length) :=
  ⟨by decide, utr_slicing_clamps overrunRecord 2 50 (by decide)⟩
